import Mathlib

/-!
Verification of the archive import pipeline
(`src/app/scripts/components/importExport/Import.js`).

The module is embedded shallowly: JavaScript strings become `String`,
the JSZip archive and the external persistence layer become an explicit
environment `Env` that fixes the result of every external call, and each
promise-returning method becomes a Lean function returning the list of
observable events it produces together with its settlement status.
Phase-1 concurrency (`Promise.all`) is modelled by an interleaving
relation `Merge` over the per-entry event traces.
-/

namespace LavernaImport

/-- Character-level splitter behind `jsSplit`: scan left to right, cut at
each occurrence of the (non-empty) separator.  `fuel` bounds the
recursion structurally; with `fuel ≥` the input length the fallback case
is never reached. -/
def splitOnAuxC (sep : List Char) : Nat → List Char → List Char → List (List Char)
  | _, [], acc => [acc.reverse]
  | 0, xs, acc => [acc.reverse ++ xs]
  | fuel + 1, c :: rest, acc =>
    if sep.isPrefixOf (c :: rest) then
      acc.reverse :: splitOnAuxC sep fuel (List.drop (sep.length - 1) rest) []
    else
      splitOnAuxC sep fuel rest (c :: acc)

/-- JavaScript `s.split(sep)` for a non-empty string separator: the list
of pieces between left-to-right, non-overlapping occurrences of `sep`.
Never returns `[]` (splitting the empty string yields `[""]`). -/
def jsSplit (s sep : String) : List String :=
  (splitOnAuxC sep.data s.data.length s.data []).map String.mk

/-- JavaScript `s.endsWith(suffix)`. -/
def jsEndsWith (s suffix : String) : Bool :=
  suffix.data.isSuffixOf s.data

/-- `s.split(sep)` followed by `_.last`: the final component of `s` split
on `sep`. -/
def lastSplit (s sep : String) : String :=
  (jsSplit s sep).getLastD ""

/-- JavaScript `s.indexOf(sub) !== -1` (substring containment), expressed
through `jsSplit`: a non-empty separator occurs in `s` iff splitting on
it yields more than one piece. -/
def containsSub (s sub : String) : Bool :=
  (jsSplit s sub).length != 1

/-- `_.capitalize` from underscore.string: upper-case the first character,
leave the rest unchanged. -/
def capitalize (s : String) : String :=
  match s.data with
  | [] => ""
  | c :: cs => String.mk (c.toUpper :: cs)

/-- An input `File` object as the classifier sees it: declared media type
(`file.type`), name and byte size. -/
structure InFile where
  type : String
  name : String
  size : Nat
deriving DecidableEq, Repr

/-- `isZipFile` (Import.js:71-76): media type `application/zip`, or the
name's final dotted component equals `zip`. -/
def isZipFile (file : InFile) : Bool :=
  file.type == "application/zip" || lastSplit file.name "." == "zip"

/-- `isKey` (Import.js:87-93): media type `text/plain`, final dotted
component `asc`, size at least 2500. -/
def isKey (file : InFile) : Bool :=
  file.type == "text/plain" && lastSplit file.name "." == "asc" &&
    decide (2500 ≤ file.size)

/-- The three ways `init` (Import.js:31-43) can route an input file. -/
inductive FileClass
  | Archive
  | Key
  | Unknown
deriving DecidableEq, Repr

/-- The classification implicit in `init`'s dispatch order: `isZipFile`
first, then `isKey`, otherwise a no-op. -/
def classify (file : InFile) : FileClass :=
  if isZipFile file then .Archive
  else if isKey file then .Key
  else .Unknown

/-- A decoded JSON record.  Only the fields the importer inspects are
structural (`encryptedData`, `content`); `rest` stands for the remaining,
uninterpreted contents of the object. -/
structure JVal where
  encryptedData : Option String := none
  content : Option String := none
  rest : String := ""
deriving DecidableEq, Repr

/-- A persistence call sent over the Radio channels. -/
inductive Eff
  /-- `collections/Notes` `saveModelObject` with `dontValidate: true`
  (Import.js:235-239). -/
  | notesSave (data : JVal) (profileId : String)
  /-- `collections/Files` `saveModelObject` (Import.js:272-275). -/
  | filesSave (data : JVal) (profileId : String)
  /-- ``collections/${type}`` `saveFromArray` (Import.js:296-299);
  `collection` is the capitalized type name. -/
  | saveFromArray (collection profileId : String) (values : JVal)
  /-- `collections/Configs` `saveConfig` (Import.js:121-123). -/
  | saveConfig (value name : String)
deriving DecidableEq, Repr

/-- Observable events of one import operation.  Entry-level events are
tagged with the archive-entry name (the key import uses the input file's
name) so that traces record which entry's import issued which call. -/
inductive Ev
  /-- `readFile` was invoked for this entry (its import started). -/
  | entryStart (entry : String)
  /-- A persistence request was issued while importing `entry`. -/
  | persistStart (entry : String) (e : Eff)
  /-- That persistence request settled. -/
  | persistSettle (entry : String) (e : Eff) (ok : Bool)
  /-- The promise returned by `readFile` for this entry settled. -/
  | entrySettle (entry : String) (ok : Bool)
  /-- The `Promise.all` aggregate of phase 1 settled. -/
  | phase1Settled (ok : Bool)
deriving DecidableEq, Repr

/-- Which entry's import an event belongs to (`phase1Settled` belongs to
no entry). -/
def originOf : Ev → Option String
  | .entryStart n => some n
  | .persistStart n _ => some n
  | .persistSettle n _ _ => some n
  | .entrySettle n _ => some n
  | .phase1Settled _ => none

/-- One member of `zip.files`: its full path name and directory flag. -/
structure ZEntry where
  name : String
  dir : Bool
deriving DecidableEq, Repr

/-- Result of `zip.file(name)` followed by `.async('string')`:
the entry may be absent (`zip.file` returns `null`, so `.async` throws),
its decoding may reject, or it decodes to a string. -/
inductive EntryVal
  | missing
  | decodeErr
  | text (s : String)
deriving DecidableEq, Repr

/-- How `readZip` (Import.js:149-162) settles: the `FileReader` has no
`onerror` handler, so a read error leaves the promise pending forever
(`hangR`); `loadAsync` may reject (`failR`) or resolve (`okR`). -/
inductive ZipOpen
  | hangR
  | failR
  | okR
deriving DecidableEq, Repr

/-- The environment fixing every external interaction of one run:
the archive's entry list (in `zip.files` enumeration order), per-name
entry contents, the JSON parser's verdict on each decoded string, the
result of each persistence call, how opening the archive goes, and what
`FileReader.readAsText` yields for the key path (`none` = read error,
for which `readText` installs no handler). -/
structure Env where
  entries : List ZEntry
  val : String → EntryVal
  parse : String → Option JVal
  persist : Eff → Bool
  zipOpen : ZipOpen
  textRead : Option String

/-- JS truthiness of `data.encryptedData && data.encryptedData.length`
(Import.js:252): the field is present (an absent field is `undefined`,
falsy) and the string is non-empty (`0` is falsy). -/
def hasEncrypted (data : JVal) : Bool :=
  match data.encryptedData with
  | none => false
  | some s => s.length != 0

/-- `readMarkdown` (Import.js:251-260): skip when the record carries
truthy non-empty `encryptedData`; otherwise decode the sibling `.md`
entry and store it as the record's `content`.  A missing sibling
(`zip.file` returns `null`) or a decode rejection fails the note. -/
def readMarkdown (env : Env) (data : JVal) (name : String) : Option JVal :=
  if hasEncrypted data then
    some data
  else
    let mdName := if jsEndsWith name ".json" then name.dropRight 5 ++ ".md" else name
    match env.val mdName with
    | .text content => some { data with content := some content }
    | _ => none

/-- `importNote` (Import.js:230-241): augment the record via
`readMarkdown`, then one `collections/Notes saveModelObject` call.
`origin` tags the emitted events with the entry being imported. -/
def importNote (env : Env) (origin : String) (profileId : String) (data : JVal)
    (name : String) : List Ev × Bool :=
  match readMarkdown env data name with
  | none => ([], false)
  | some data' =>
    let eff := Eff.notesSave data' profileId
    let r := env.persist eff
    ([.persistStart origin eff, .persistSettle origin eff r], r)

/-- `importFile` (Import.js:270-276): one `collections/Files
saveModelObject` call. -/
def importFile (env : Env) (origin : String) (profileId : String)
    (data : JVal) : List Ev × Bool :=
  let eff := Eff.filesSave data profileId
  let r := env.persist eff
  ([.persistStart origin eff, .persistSettle origin eff r], r)

/-- The whitelist of bulk-collection type names (Import.js:289). -/
def collectionTypes : List String :=
  ["notebooks", "tags", "configs", "users", "files"]

/-- `importCollection` (Import.js:287-300): unknown type names resolve
silently with no persistence call; known ones issue one
``collections/${capitalize type} saveFromArray`` call. -/
def importCollection (env : Env) (origin : String) (profileId : String)
    (data : JVal) (type : String) : List Ev × Bool :=
  if collectionTypes.contains type then
    let eff := Eff.saveFromArray (capitalize type) profileId data
    let r := env.persist eff
    ([.persistStart origin eff, .persistSettle origin eff r], r)
  else
    ([], true)

/-- The body of `readFile`'s `.then` (Import.js:200-218): decode the
entry, `JSON.parse` it, split the path, derive the profile id
(`notes-db` maps to `default`), and dispatch on path segment 2.
A missing segment 2 makes `path[2].split` throw, failing the entry;
a missing segment 1 leaves `profileId` as JS `undefined`, but such an
entry always fails at segment 2 before any persistence call. -/
def readFileCore (env : Env) (file : ZEntry) : List Ev × Bool :=
  match env.val file.name with
  | .missing => ([], false)
  | .decodeErr => ([], false)
  | .text res =>
    match env.parse res with
    | none => ([], false)
    | some data =>
      let path := jsSplit file.name "/"
      let profileId :=
        match path[1]? with
        | some p => if p == "notes-db" then "default" else p
        | none => "undefined"
      match path[2]? with
      | none => ([], false)
      | some seg2 =>
        if seg2 == "notes" then
          importNote env file.name profileId data file.name
        else if seg2 == "files" then
          importFile env file.name profileId data
        else
          importCollection env file.name profileId data
            ((jsSplit seg2 ".json").headD "")

/-- `readFile` (Import.js:200-218) as a traced computation: its promise's
life is `entryStart`, the inner events, then `entrySettle` with its
settlement status. -/
def readFileRun (env : Env) (file : ZEntry) : List Ev × Bool :=
  let c := readFileCore env file
  (.entryStart file.name :: (c.1 ++ [.entrySettle file.name c.2]), c.2)

/-- The filter at Import.js:176: directories and entries whose final
dotted component is not `json` are skipped. -/
def skipEntry (f : ZEntry) : Bool :=
  f.dir || lastSplit f.name "." != "json"

/-- The loop body of `import`'s `_.each` (Import.js:174-186): skip, push
onto the phase-1 list, or overwrite the `configFile` slot. -/
def stepEntry (acc : List ZEntry × Option ZEntry) (f : ZEntry) :
    List ZEntry × Option ZEntry :=
  if skipEntry f then acc
  else if containsSub f.name "configs.json" then (acc.1, some f)
  else (acc.1 ++ [f], acc.2)

/-- The `_.each` loop of `import` (Import.js:174-186). -/
def walkEntries (fs : List ZEntry) : List ZEntry × Option ZEntry :=
  fs.foldl stepEntry ([], none)

/-- The entries whose imports run in phase 1. -/
def phase1Entries (env : Env) : List ZEntry :=
  (walkEntries env.entries).1

/-- The entry left in the `configFile` variable after the loop. -/
def configFile (env : Env) : Option ZEntry :=
  (walkEntries env.entries).2

/-- The per-entry phase-1 traces, in enumeration order. -/
def entryTraces (env : Env) : List (List Ev) :=
  (phase1Entries env).map fun f => (readFileRun env f).1

/-- Whether every phase-1 import fulfills. -/
def phase1AllOk (env : Env) : Bool :=
  (phase1Entries env).all fun f => (readFileRun env f).2

/-- `this.readFile(zip, configFile)` at Import.js:190.  When no
configuration entry was found, `configFile` is `undefined` and
`file.name` throws a `TypeError`, rejecting the chain before any event. -/
def readConfigRun (env : Env) : List Ev × Bool :=
  match configFile env with
  | none => ([], false)
  | some f => readFileRun env f

/-- An interleaving of several event sequences, each kept in its own
order: one cooperative schedule of the concurrently running phase-1
imports. -/
inductive Merge : List (List Ev) → List Ev → Prop
  | done (tss : List (List Ev)) : (∀ l, l ∈ tss → l = []) → Merge tss []
  | step (tss : List (List Ev)) (i : Nat) (e : Ev) (rest out : List Ev) :
      tss[i]? = some (e :: rest) → Merge (tss.set i rest) out →
      Merge tss (e :: out)

/-- `Promise.all` rejects at the first rejection: place the aggregate's
settlement right after the first failing `entrySettle`; subsequent
events of still-running imports follow it. -/
def insertFail : List Ev → List Ev
  | [] => [.phase1Settled false]
  | e :: rest =>
    match e with
    | .entrySettle n false => .entrySettle n false :: .phase1Settled false :: rest
    | _ => e :: insertFail rest

/-- `import` (Import.js:170-191): the possible traces and settlement
statuses of one archive import.  When all phase-1 imports fulfill,
`Promise.all` fulfills after the last of them and only then does the
`.then` run `readFile` on the configuration entry; when one rejects,
the aggregate rejects there, the configuration `readFile` never runs,
and the remaining phase-1 events still occur. -/
def ImportRun (env : Env) (t : List Ev) (ok : Bool) : Prop :=
  ∃ t1, Merge (entryTraces env) t1 ∧
    (if phase1AllOk env then
      t = t1 ++ .phase1Settled true :: (readConfigRun env).1 ∧
        ok = (readConfigRun env).2
    else
      t = insertFail t1 ∧ ok = false)

/-- Whether and how the operation's `completed` event fires: not at all,
without an error payload (`onSuccess`), or with one (`onError`). -/
inductive Completion
  | none
  | ok
  | err
deriving DecidableEq, Repr

/-- The observable outcome of one `init` run: the persistence/entry
trace, whether `started` fired, how `completed` fired, and whether the
returned promise ever settles. -/
structure RunResult where
  trace : List Ev
  started : Bool
  completed : Completion
  settles : Bool
deriving Repr

/-- The outcome of `init` when it does nothing: `Promise.resolve()`,
no signals, no calls. -/
def noopResult : RunResult :=
  { trace := [], started := false, completed := .none, settles := true }

/-- `importKey` (Import.js:115-127): `started`, then `readText`
(Import.js:135-141), whose promise only ever resolves — a reader error
leaves it pending forever, so neither `onSuccess` nor `onError` runs —
then one `saveConfig` call under the name `privateKey`. -/
def importKeyRun (env : Env) (file : InFile) : RunResult :=
  match env.textRead with
  | none => { trace := [], started := true, completed := .none, settles := false }
  | some value =>
    let eff := Eff.saveConfig value "privateKey"
    let r := env.persist eff
    { trace := [.persistStart file.name eff, .persistSettle file.name eff r]
      started := true
      completed := if r then .ok else .err
      settles := true }

/-- `importData` (Import.js:100-108): `started`, then `readZip` — whose
`FileReader` likewise has no error handler, so a read error hangs; a
`loadAsync` rejection reaches `onError` — then `import`, then
`onSuccess`/`onError`. -/
def ArchiveRun (env : Env) (_file : InFile) (r : RunResult) : Prop :=
  match env.zipOpen with
  | .hangR => r = { trace := [], started := true, completed := .none, settles := false }
  | .failR => r = { trace := [], started := true, completed := .err, settles := true }
  | .okR => ∃ t ok, ImportRun env t ok ∧
      r = { trace := t, started := true
            completed := if ok then .ok else .err, settles := true }

/-- `init` (Import.js:31-43): with a non-empty file list, dispatch on
`isZipFile` then `isKey`; otherwise resolve immediately with no signal
and no call. -/
def InitRun (files : Option (List InFile)) (env : Env) (r : RunResult) : Prop :=
  match files with
  | none => r = noopResult
  | some [] => r = noopResult
  | some (f :: _) =>
    if isZipFile f then ArchiveRun env f r
    else if isKey f then r = importKeyRun env f
    else r = noopResult

/-! ### Lemmas about `Merge` -/

/-- Every event of every merged task appears in the interleaving. -/
theorem Merge.mem_out {tss : List (List Ev)} {out : List Ev}
    (h : Merge tss out) :
    ∀ (i : Nat) (l : List Ev), tss[i]? = some l → ∀ e, e ∈ l → e ∈ out := by
  induction h with
  | done tss hall =>
    intro i l hl e he
    rw [hall l (List.getElem?_mem hl)] at he
    cases he
  | step tss i e rest out hget _ ih =>
    intro j l hl a ha
    by_cases hij : j = i
    · subst hij
      rw [hget] at hl
      cases hl
      rcases List.mem_cons.1 ha with rfl | ha'
      · exact List.mem_cons_self _ _
      · have hlt : j < tss.length := (List.getElem?_eq_some_iff.1 hget).1
        exact List.mem_cons_of_mem _
          (ih j rest (List.getElem?_set_self hlt) a ha')
    · refine List.mem_cons_of_mem _ (ih j l ?_ a ha)
      rw [List.getElem?_set_ne (fun h' => hij h'.symm)]
      exact hl

/-- Membership form of `Merge.mem_out`. -/
theorem Merge.mem_out_of_mem {tss : List (List Ev)} {out : List Ev}
    (h : Merge tss out) {l : List Ev} (hl : l ∈ tss) {e : Ev} (he : e ∈ l) :
    e ∈ out := by
  obtain ⟨i, hi⟩ := List.get_of_mem hl
  exact h.mem_out i l (by rw [List.getElem?_eq_getElem i.isLt]; simp [← hi, List.get_eq_getElem]) e he

/-- Every event of the interleaving comes from one of the merged tasks. -/
theorem Merge.mem_src {tss : List (List Ev)} {out : List Ev}
    (h : Merge tss out) : ∀ e, e ∈ out → ∃ l, l ∈ tss ∧ e ∈ l := by
  induction h with
  | done _ _ => intro e he; cases he
  | step tss i e rest out hget _ ih =>
    intro a ha
    rcases List.mem_cons.1 ha with hae | ha'
    · exact ⟨e :: rest, List.getElem?_mem hget, by rw [hae]; exact List.mem_cons_self _ _⟩
    · obtain ⟨l, hl, hal⟩ := ih a ha'
      rcases List.mem_or_eq_of_mem_set hl with hl' | hlr
      · exact ⟨l, hl', hal⟩
      · exact ⟨e :: rest, List.getElem?_mem hget,
          List.mem_cons_of_mem _ (hlr ▸ hal)⟩

/-- An empty task can be prepended to any interleaving. -/
theorem Merge.nil_cons {tss : List (List Ev)} {out : List Ev}
    (h : Merge tss out) : Merge ([] :: tss) out := by
  induction h with
  | done tss hall =>
    exact .done _ (by intro l hl; rcases List.mem_cons.1 hl with rfl | hl' <;>
      [rfl; exact hall l hl'])
  | step tss i e rest out hget _ ih =>
    exact .step _ (i + 1) e rest out (by simpa using hget) (by simpa using ih)

/-- Running the tasks to completion one after another, in order, is one
valid interleaving. -/
theorem Merge.seq (tss : List (List Ev)) : Merge tss tss.flatten := by
  induction tss with
  | nil => exact .done [] (by intro l hl; cases hl)
  | cons l ls ih =>
    induction l with
    | nil => simpa using ih.nil_cons
    | cons e l' ihl =>
      have h0 : ((e :: l') :: ls)[0]? = some (e :: l') := by simp
      have hm : Merge (((e :: l') :: ls).set 0 l') (l' ++ ls.flatten) := by
        simpa using ihl
      simpa using Merge.step ((e :: l') :: ls) 0 e l' (l' ++ ls.flatten) h0 hm

/-! ### List-splitting lemmas -/

/-- If an occurrence of `x` splits `xs ++ rest` and `x` does not occur in
`xs`, then the part before the occurrence contains all of `xs`. -/
theorem mem_pre_of_split {α : Type} {xs rest pre post : List α} {x : α}
    (h : xs ++ rest = pre ++ x :: post) (hx : x ∉ xs) :
    ∀ a, a ∈ xs → a ∈ pre := by
  induction xs generalizing pre with
  | nil => intro a ha; cases ha
  | cons y ys ih =>
    intro a ha
    cases pre with
    | nil =>
      simp only [List.nil_append] at h
      cases h
      exact absurd (List.mem_cons_self _ _) hx
    | cons p ps =>
      simp only [List.cons_append, List.cons.injEq] at h
      obtain ⟨rfl, h'⟩ := h
      rcases List.mem_cons.1 ha with rfl | ha'
      · exact List.mem_cons_self _ _
      · exact List.mem_cons_of_mem _
          (ih h' (fun hm => hx (List.mem_cons_of_mem _ hm)) a ha')

/-- If `xs ++ m :: ys` is split at an element satisfying `P`, while `m`
satisfies `P` and nothing in `xs` or `ys` does, the split is exactly at
`m`. -/
theorem split_eq_of_unique {α : Type} (P : α → Prop) {xs ys pre post : List α}
    {m m' : α} (h : xs ++ m :: ys = pre ++ m' :: post) (hm' : P m')
    (hxs : ∀ a, a ∈ xs → ¬P a) (hys : ∀ a, a ∈ ys → ¬P a) :
    pre = xs ∧ m' = m ∧ post = ys := by
  induction xs generalizing pre with
  | nil =>
    cases pre with
    | nil =>
      simp only [List.nil_append] at h
      cases h
      exact ⟨rfl, rfl, rfl⟩
    | cons p ps =>
      simp only [List.nil_append, List.cons_append, List.cons.injEq] at h
      refine absurd hm' (hys m' ?_)
      have hmem : m' ∈ ps ++ m' :: post := by simp
      rw [← h.2] at hmem
      exact hmem
  | cons y zs ih =>
    cases pre with
    | nil =>
      simp only [List.nil_append, List.cons_append, List.cons.injEq] at h
      refine absurd ?_ (hxs y (List.mem_cons_self _ _))
      rw [h.1]
      exact hm'
    | cons p ps =>
      simp only [List.cons_append, List.cons.injEq] at h
      obtain ⟨h1, h2, h3⟩ := ih h.2 (fun a ha => hxs a (List.mem_cons_of_mem _ ha))
      exact ⟨by rw [h1, h.1], h2, h3⟩

/-! ### Which entry a trace's events belong to -/

theorem originOf_importNote {env : Env} {o p n : String} {d : JVal} {e : Ev}
    (he : e ∈ (importNote env o p d n).1) : originOf e = some o := by
  unfold importNote at he
  split at he
  · cases he
  · rcases List.mem_cons.1 he with h | h'
    · rw [h]; rfl
    · rcases List.mem_cons.1 h' with h'' | h'''
      · rw [h'']; rfl
      · cases h'''

theorem originOf_importFile {env : Env} {o p : String} {d : JVal} {e : Ev}
    (he : e ∈ (importFile env o p d).1) : originOf e = some o := by
  unfold importFile at he
  rcases List.mem_cons.1 he with h | h'
  · rw [h]; rfl
  · rcases List.mem_cons.1 h' with h'' | h'''
    · rw [h'']; rfl
    · cases h'''

theorem originOf_importCollection {env : Env} {o p ty : String} {d : JVal}
    {e : Ev} (he : e ∈ (importCollection env o p d ty).1) :
    originOf e = some o := by
  unfold importCollection at he
  split at he
  · rcases List.mem_cons.1 he with h | h'
    · rw [h]; rfl
    · rcases List.mem_cons.1 h' with h'' | h'''
      · rw [h'']; rfl
      · cases h'''
  · cases he

/-- Every event of `readFileCore` is tagged with the entry's name. -/
theorem originOf_readFileCore {env : Env} {f : ZEntry} {e : Ev}
    (he : e ∈ (readFileCore env f).1) : originOf e = some f.name := by
  unfold readFileCore at he
  split at he
  · cases he
  · cases he
  · split at he
    · cases he
    · dsimp only at he
      split at he
      · cases he
      · split at he
        · exact originOf_importNote he
        · split at he
          · exact originOf_importFile he
          · exact originOf_importCollection he

/-- Every event of `readFileRun` is tagged with the entry's name. -/
theorem originOf_readFileRun {env : Env} {f : ZEntry} {e : Ev}
    (he : e ∈ (readFileRun env f).1) : originOf e = some f.name := by
  simp only [readFileRun, List.mem_cons, List.mem_append,
    List.mem_singleton, List.not_mem_nil, or_false] at he
  rcases he with h | h | h
  · rw [h]; rfl
  · exact originOf_readFileCore h
  · rw [h]; rfl

/-- `readFileRun`'s trace ends with the settlement of the entry's
promise. -/
theorem entrySettle_mem_readFileRun (env : Env) (f : ZEntry) :
    Ev.entrySettle f.name (readFileRun env f).2 ∈ (readFileRun env f).1 := by
  simp [readFileRun]

/-- `insertFail` only adds the aggregate-settlement marker. -/
theorem mem_insertFail {t : List Ev} {e : Ev} (he : e ∈ insertFail t) :
    e ∈ t ∨ e = .phase1Settled false := by
  induction t with
  | nil =>
    simp only [insertFail, List.mem_singleton] at he
    exact Or.inr he
  | cons x rest ih =>
    unfold insertFail at he
    split at he
    · rcases List.mem_cons.1 he with h1 | h2
      · exact Or.inl (by rw [h1]; exact List.mem_cons_self _ _)
      · rcases List.mem_cons.1 h2 with h3 | h4
        · exact Or.inr h3
        · exact Or.inl (List.mem_cons_of_mem _ h4)
    · rcases List.mem_cons.1 he with h1 | h2
      · exact Or.inl (by rw [h1]; exact List.mem_cons_self _ _)
      · rcases ih h2 with h3 | h4
        · exact Or.inl (List.mem_cons_of_mem _ h3)
        · exact Or.inr h4

/-! ### Characterizing the entry walk -/

/-- The predicate selecting phase-1 entries. -/
def phase1Pred (f : ZEntry) : Bool :=
  !skipEntry f && !containsSub f.name "configs.json"

/-- The predicate selecting configuration entries. -/
def configPred (f : ZEntry) : Bool :=
  !skipEntry f && containsSub f.name "configs.json"

theorem walk_fst (fs : List ZEntry) :
    ∀ acc, (fs.foldl stepEntry acc).1 = acc.1 ++ fs.filter phase1Pred := by
  induction fs with
  | nil => intro acc; simp
  | cons f fs ih =>
    intro acc
    simp only [List.foldl_cons, List.filter_cons]
    by_cases h1 : skipEntry f
    · simp [stepEntry, h1, phase1Pred, ih acc]
    · by_cases h2 : containsSub f.name "configs.json"
      · simp [stepEntry, h1, h2, phase1Pred, ih]
      · simp [stepEntry, h1, h2, phase1Pred, ih]

theorem walk_snd (fs : List ZEntry) :
    ∀ acc, (fs.foldl stepEntry acc).2 =
      ((fs.filter configPred).getLast?).or acc.2 := by
  induction fs with
  | nil => intro acc; simp
  | cons f fs ih =>
    intro acc
    simp only [List.foldl_cons, List.filter_cons]
    by_cases h1 : skipEntry f
    · simp [stepEntry, h1, configPred, ih acc]
    · by_cases h2 : containsSub f.name "configs.json"
      · have hstep : stepEntry acc f = (acc.1, some f) := by
          simp [stepEntry, h1, h2]
        rw [hstep, ih]
        have : configPred f = true := by simp [configPred, h1, h2]
        simp only [this, if_pos rfl]
        cases h3 : (fs.filter configPred).getLast? with
        | none =>
          have : fs.filter configPred = [] := List.getLast?_eq_none_iff.1 h3
          simp [List.getLast?_cons, this]
        | some x =>
          obtain ⟨ys, hys⟩ := List.getLast?_eq_some_iff.1 h3
          simp [hys, List.getLast?_cons]
      · have hc : configPred f = false := by simp [configPred, h2]
        have hstep : stepEntry acc f = (acc.1 ++ [f], acc.2) := by
          simp [stepEntry, h1, h2]
        rw [hstep, ih (acc.1 ++ [f], acc.2)]
        simp [List.filter_cons, hc]

/-- The phase-1 entries are exactly the eligible non-configuration
entries, in enumeration order. -/
theorem phase1Entries_eq (env : Env) :
    phase1Entries env = env.entries.filter phase1Pred := by
  have := walk_fst env.entries ([], none)
  simpa [phase1Entries, walkEntries] using this

/-- The deferred configuration entry is the last eligible entry whose
name contains `configs.json`. -/
theorem configFile_eq (env : Env) :
    configFile env = (env.entries.filter configPred).getLast? := by
  have := walk_snd env.entries ([], none)
  simpa [configFile, walkEntries] using this

/-- Phase-1 entries never match the configuration test. -/
theorem phase1_not_config {env : Env} {f : ZEntry}
    (hf : f ∈ phase1Entries env) :
    containsSub f.name "configs.json" = false := by
  rw [phase1Entries_eq] at hf
  have := (List.mem_filter.1 hf).2
  simp only [phase1Pred, Bool.and_eq_true, Bool.not_eq_true'] at this
  exact this.2

/-- The deferred configuration entry does match the configuration test. -/
theorem configFile_contains {env : Env} {cf : ZEntry}
    (h : configFile env = some cf) :
    containsSub cf.name "configs.json" = true := by
  rw [configFile_eq] at h
  have hm := List.mem_of_getLast?_eq_some h
  have := (List.mem_filter.1 hm).2
  simp only [configPred, Bool.and_eq_true] at this
  exact this.2

/-- A phase-1 entry and the configuration entry never share a name. -/
theorem phase1_name_ne_config {env : Env} {f cf : ZEntry}
    (hf : f ∈ phase1Entries env) (hcf : configFile env = some cf) :
    f.name ≠ cf.name := by
  intro h
  have h1 := phase1_not_config hf
  have h2 := configFile_contains hcf
  rw [h] at h1
  rw [h1] at h2
  cases h2

/-! ### Properties of interleaved phase-1 traces -/

/-- Every event of a phase-1 interleaving comes from some phase-1
entry's trace. -/
theorem mem_t1_src {env : Env} {t1 : List Ev}
    (h : Merge (entryTraces env) t1) {e : Ev} (he : e ∈ t1) :
    ∃ f, f ∈ phase1Entries env ∧ e ∈ (readFileRun env f).1 := by
  obtain ⟨l, hl, hel⟩ := h.mem_src e he
  obtain ⟨f, hf, hfl⟩ := List.mem_map.1 hl
  exact ⟨f, hf, by rw [hfl]; exact hel⟩

/-- Every event of a phase-1 interleaving is tagged with a phase-1
entry's name. -/
theorem t1_origin {env : Env} {t1 : List Ev}
    (h : Merge (entryTraces env) t1) {e : Ev} (he : e ∈ t1) :
    ∃ f, f ∈ phase1Entries env ∧ originOf e = some f.name := by
  obtain ⟨f, hf, hel⟩ := mem_t1_src h he
  exact ⟨f, hf, originOf_readFileRun hel⟩

/-- The phase-1 aggregate's settlement marker is not an entry event. -/
theorem phase1Settled_not_mem_t1 {env : Env} {t1 : List Ev}
    (h : Merge (entryTraces env) t1) (b : Bool) :
    Ev.phase1Settled b ∉ t1 := by
  intro hmem
  obtain ⟨f, _, habs⟩ := t1_origin h hmem
  simp [originOf] at habs

/-- Each phase-1 entry's settlement appears in every interleaving. -/
theorem settle_mem_t1 {env : Env} {t1 : List Ev}
    (h : Merge (entryTraces env) t1) {f : ZEntry}
    (hf : f ∈ phase1Entries env) :
    Ev.entrySettle f.name (readFileRun env f).2 ∈ t1 :=
  h.mem_out_of_mem (List.mem_map_of_mem _ hf)
    (entrySettle_mem_readFileRun env f)

/-- The phase-1 aggregate's settlement marker is not a configuration
trace event either. -/
theorem phase1Settled_not_mem_config (env : Env) (b : Bool) :
    Ev.phase1Settled b ∉ (readConfigRun env).1 := by
  unfold readConfigRun
  split
  · simp
  · intro hmem
    have := originOf_readFileRun hmem
    simp [originOf] at this

/-! ### Claim theorems -/

/-- C3: classification yields `Archive` iff the media type equals
`application/zip` or the name's final dotted component equals `zip`;
`Key` iff the media type equals `text/plain`, the final dotted component
equals `asc` and the size is at least 2500; `Unknown` otherwise. -/
theorem C3_classify_spec (file : InFile) :
    (classify file = .Archive ↔
      (file.type = "application/zip" ∨ lastSplit file.name "." = "zip")) ∧
    (classify file = .Key ↔
      (file.type = "text/plain" ∧ lastSplit file.name "." = "asc" ∧
        2500 ≤ file.size)) ∧
    (classify file = .Unknown ↔
      (¬(file.type = "application/zip" ∨ lastSplit file.name "." = "zip") ∧
       ¬(file.type = "text/plain" ∧ lastSplit file.name "." = "asc" ∧
         2500 ≤ file.size))) := by
  have hz : (isZipFile file = true) ↔
      (file.type = "application/zip" ∨ lastSplit file.name "." = "zip") := by
    simp [isZipFile]
  have hk : (isKey file = true) ↔
      (file.type = "text/plain" ∧ lastSplit file.name "." = "asc" ∧
        2500 ≤ file.size) := by
    simp [isKey, and_assoc]
  have hexcl : ¬(isZipFile file = true ∧ isKey file = true) := by
    rintro ⟨h1, h2⟩
    obtain ⟨ht, ha, _⟩ := hk.1 h2
    rcases hz.1 h1 with h3 | h3
    · rw [ht] at h3; exact absurd h3 (by decide)
    · rw [ha] at h3; exact absurd h3 (by decide)
  by_cases h1 : isZipFile file
  · refine ⟨by simp [classify, h1, hz.1 h1], ⟨?_, ?_⟩, ⟨?_, ?_⟩⟩
    · intro h; simp [classify, h1] at h
    · intro h; exact absurd ⟨h1, hk.2 h⟩ hexcl
    · intro h; simp [classify, h1] at h
    · rintro ⟨hA, _⟩; exact absurd (hz.1 h1) hA
  · by_cases h2 : isKey file
    · refine ⟨⟨?_, ?_⟩, by simp [classify, h1, h2, hk.1 h2], ⟨?_, ?_⟩⟩
      · intro h; simp [classify, h1, h2] at h
      · intro h; exact absurd (hz.2 h) h1
      · intro h; simp [classify, h1, h2] at h
      · rintro ⟨_, hK⟩; exact absurd (hk.1 h2) hK
    · refine ⟨⟨?_, ?_⟩, ⟨?_, ?_⟩, ?_⟩
      · intro h; simp [classify, h1, h2] at h
      · intro h; exact absurd (hz.2 h) h1
      · intro h; simp [classify, h1, h2] at h
      · intro h; exact absurd (hk.2 h) h2
      · constructor
        · intro _
          exact ⟨fun h => absurd (hz.2 h) h1, fun h => absurd (hk.2 h) h2⟩
        · intro _; simp [classify, h1, h2]

/-- C9: a file named exactly `zip` (no dot in the name) is classified
as `Archive` whatever its media type, and a file named exactly `asc`
with media type `text/plain` and size at least 2500 is classified as
`Key`: the whole name acts as its own final dotted component. -/
theorem C9_no_dot_names (t : String) (n k : Nat) (hk : 2500 ≤ k) :
    classify ⟨t, "zip", n⟩ = .Archive ∧
    classify ⟨"text/plain", "asc", k⟩ = .Key := by
  constructor
  · have h : lastSplit "zip" "." = "zip" := by decide
    simp [classify, isZipFile, h]
  · have h1 : isZipFile ⟨"text/plain", "asc", k⟩ = false := by
      simp [isZipFile, lastSplit]
      decide
    have h2 : lastSplit "asc" "." = "asc" := by decide
    simp [classify, h1, isKey, h2, hk]

/-- Witness for C9 at a concrete media type and size. -/
theorem C9_no_dot_names_witness :
    2500 ≤ 2500 ∧
      (classify ⟨"application/pdf", "zip", 7⟩ = .Archive ∧
       classify ⟨"text/plain", "asc", 2500⟩ = .Key) :=
  ⟨by decide, C9_no_dot_names "application/pdf" 7 2500 (by decide)⟩

/-- C8: invoked with zero input files or an absent file list, the
operation resolves with no `started` signal, no `completed` signal and
no persistence calls. -/
theorem C8_zero_files (files : Option (List InFile)) (env : Env)
    (r : RunResult) (hfiles : files = none ∨ files = some [])
    (h : InitRun files env r) :
    r.trace = [] ∧ r.started = false ∧ r.completed = .none ∧
      r.settles = true := by
  rcases hfiles with rfl | rfl
  · have h' : r = noopResult := h
    rw [h']; exact ⟨rfl, rfl, rfl, rfl⟩
  · have h' : r = noopResult := h
    rw [h']; exact ⟨rfl, rfl, rfl, rfl⟩

/-- An environment with no archive and no key text, used for witnesses. -/
def emptyEnv : Env :=
  { entries := []
    val := fun _ => .missing
    parse := fun _ => Option.none
    persist := fun _ => true
    zipOpen := .okR
    textRead := Option.none }

/-- Witness for C8 at the absent file list. -/
theorem C8_zero_files_witness :
    (Option.none = (Option.none : Option (List InFile)) ∨
      Option.none = some ([] : List InFile)) ∧
    (noopResult.trace = [] ∧ noopResult.started = false ∧
      noopResult.completed = .none ∧ noopResult.settles = true) :=
  ⟨Or.inl rfl,
    C8_zero_files Option.none emptyEnv noopResult (Or.inl rfl) rfl⟩

/-- C5: a bulk-collection entry whose declared type name (the part of
path segment 2 before `.json`) is outside the whitelist imports with no
persistence call and settles successfully, so it cannot fail the
archive import. -/
theorem C5_unknown_type (env : Env) (f : ZEntry) (s : String) (data : JVal)
    (seg2 : String)
    (hval : env.val f.name = .text s)
    (hparse : env.parse s = some data)
    (hseg : (jsSplit f.name "/")[2]? = some seg2)
    (hn : (seg2 == "notes") = false) (hf2 : (seg2 == "files") = false)
    (hty : collectionTypes.contains ((jsSplit seg2 ".json").headD "") = false) :
    readFileRun env f =
      ([.entryStart f.name, .entrySettle f.name true], true) := by
  have hcore : readFileCore env f = ([], true) := by
    unfold readFileCore
    rw [hval]
    dsimp only
    rw [hparse]
    dsimp only
    rw [hseg]
    dsimp only
    rw [hn, hf2]
    simp only [Bool.false_eq_true, if_false]
    unfold importCollection
    rw [hty]
    simp only [Bool.false_eq_true, if_false]
  unfold readFileRun
  rw [hcore]
  rfl

/-- Witness for C5: the entry `export/p1/unknowntype.json`. -/
def envC5 : Env :=
  { entries := [⟨"export/p1/unknowntype.json", false⟩]
    val := fun n =>
      if n == "export/p1/unknowntype.json" then .text "[]" else .missing
    parse := fun sv => if sv == "[]" then some {} else Option.none
    persist := fun _ => true
    zipOpen := .okR
    textRead := Option.none }

theorem C5_unknown_type_witness :
    readFileRun envC5 ⟨"export/p1/unknowntype.json", false⟩ =
      ([.entryStart "export/p1/unknowntype.json",
        .entrySettle "export/p1/unknowntype.json" true], true) :=
  C5_unknown_type envC5 ⟨"export/p1/unknowntype.json", false⟩ "[]" {}
    "unknowntype.json" (by decide) (by decide) (by decide) (by decide)
    (by decide) (by decide)

/-- C4: for the archive entry `export/notes-db/notes/abc.json` whose
record carries no non-empty inline encrypted content, with sibling
`export/notes-db/notes/abc.md` decoding to `"hello"`, the record handed
to the notes persistence call has content `"hello"` and profile id
`default`. -/
theorem C4_note_content (env : Env) (s : String) (data : JVal)
    (hval : env.val "export/notes-db/notes/abc.json" = .text s)
    (hparse : env.parse s = some data)
    (henc : hasEncrypted data = false)
    (hmd : env.val "export/notes-db/notes/abc.md" = .text "hello") :
    readFileCore env ⟨"export/notes-db/notes/abc.json", false⟩ =
      ([.persistStart "export/notes-db/notes/abc.json"
          (.notesSave { data with content := some "hello" } "default"),
        .persistSettle "export/notes-db/notes/abc.json"
          (.notesSave { data with content := some "hello" } "default")
          (env.persist
            (.notesSave { data with content := some "hello" } "default"))],
       env.persist
         (.notesSave { data with content := some "hello" } "default")) := by
  have hpath : jsSplit "export/notes-db/notes/abc.json" "/" =
      ["export", "notes-db", "notes", "abc.json"] := by decide
  have hrm : readMarkdown env data "export/notes-db/notes/abc.json" =
      some { data with content := some "hello" } := by
    have hmdname :
        (if jsEndsWith "export/notes-db/notes/abc.json" ".json" = true
          then "export/notes-db/notes/abc.json".dropRight 5 ++ ".md"
          else "export/notes-db/notes/abc.json") =
          "export/notes-db/notes/abc.md" := by decide
    unfold readMarkdown
    simp only [henc, Bool.false_eq_true, if_false]
    rw [hmdname, hmd]
  have h1 : (["export", "notes-db", "notes", "abc.json"] :
      List String)[1]? = some "notes-db" := by decide
  have h2 : (["export", "notes-db", "notes", "abc.json"] :
      List String)[2]? = some "notes" := by decide
  have h3 : (("notes-db" : String) == "notes-db") = true := by decide
  have h4 : (("notes" : String) == "notes") = true := by decide
  simp only [readFileCore, hval, hparse, hpath, h1, h2, h3, h4,
    eq_self_iff_true, if_true, importNote, hrm]

/-- Witness environment for C4. -/
def envC4 : Env :=
  { entries := [⟨"export/notes-db/notes/abc.json", false⟩]
    val := fun n =>
      if n == "export/notes-db/notes/abc.json" then .text "{}"
      else if n == "export/notes-db/notes/abc.md" then .text "hello"
      else .missing
    parse := fun sv => if sv == "{}" then some {} else Option.none
    persist := fun _ => true
    zipOpen := .okR
    textRead := Option.none }

theorem C4_note_content_witness :
    readFileCore envC4 ⟨"export/notes-db/notes/abc.json", false⟩ =
      ([.persistStart "export/notes-db/notes/abc.json"
          (.notesSave { content := some "hello" } "default"),
        .persistSettle "export/notes-db/notes/abc.json"
          (.notesSave { content := some "hello" } "default") true],
       true) := by
  have h := C4_note_content envC4 "{}" ({} : JVal) (by decide) (by decide)
    (by decide) (by decide)
  simpa using h

/-- A key file as the classifier accepts it. -/
def fileC7 : InFile := ⟨"text/plain", "key.asc", 3000⟩

/-- Environment in which the key file's `FileReader` read fails:
`readText` never settles. -/
def envC7 : Env :=
  { entries := []
    val := fun _ => .missing
    parse := fun _ => Option.none
    persist := fun _ => true
    zipOpen := .okR
    textRead := Option.none }

/-- C7 counterexample: for a file classified as `Key` whose text
decoding fails, the operation does not surface the failure — `readText`
installs no error handler, so the run never settles and no `completed`
signal (with or without error) is emitted, contradicting the claim that
every decoding failure surfaces as a `completed` signal carrying an
error. -/
theorem C7_counterexample :
    classify fileC7 = .Key ∧
    envC7.textRead = Option.none ∧
    InitRun (some [fileC7]) envC7
      { trace := [], started := true, completed := .none, settles := false } ∧
    (importKeyRun envC7 fileC7).completed ≠ .err ∧
    (importKeyRun envC7 fileC7).settles = false :=
  ⟨by decide, rfl, rfl, by decide, by decide⟩

/-- C7 amended: when the text decode succeeds, the key path issues
exactly one persistence call storing the decoded text under the
configuration key `privateKey`, and a persistence failure surfaces as
`completed` with an error; when the text decode fails, the operation
never settles and emits no `completed` signal at all. -/
theorem C7_key_path (env : Env) (file : InFile) :
    (∀ value, env.textRead = some value →
      importKeyRun env file =
        { trace := [.persistStart file.name (.saveConfig value "privateKey"),
                    .persistSettle file.name (.saveConfig value "privateKey")
                      (env.persist (.saveConfig value "privateKey"))]
          started := true
          completed :=
            if env.persist (.saveConfig value "privateKey") then .ok else .err
          settles := true }) ∧
    (env.textRead = Option.none →
      importKeyRun env file =
        { trace := [], started := true, completed := .none,
          settles := false }) := by
  constructor
  · intro value hv
    unfold importKeyRun
    rw [hv]
  · intro hv
    unfold importKeyRun
    rw [hv]

/-- Environment in which the key text decodes but persistence fails. -/
def envC7p : Env :=
  { entries := []
    val := fun _ => .missing
    parse := fun _ => Option.none
    persist := fun _ => false
    zipOpen := .okR
    textRead := some "KEYDATA" }

/-- Witness for C7 at both branches: a decoded key that fails to
persist, and a key whose read never settles. -/
theorem C7_key_path_witness :
    importKeyRun envC7p fileC7 =
      { trace := [.persistStart "key.asc" (.saveConfig "KEYDATA" "privateKey"),
                  .persistSettle "key.asc" (.saveConfig "KEYDATA" "privateKey")
                    (envC7p.persist (.saveConfig "KEYDATA" "privateKey"))]
        started := true
        completed :=
          if envC7p.persist (.saveConfig "KEYDATA" "privateKey") then .ok
          else .err
        settles := true } ∧
    importKeyRun envC7 fileC7 =
      { trace := [], started := true, completed := .none, settles := false } :=
  ⟨(C7_key_path envC7p fileC7).1 "KEYDATA" rfl,
   (C7_key_path envC7 fileC7).2 rfl⟩

/-- An archive with one importable entry and no configuration entry. -/
def envC2 : Env :=
  { entries := [⟨"export/default/notebooks.json", false⟩]
    val := fun n =>
      if n == "export/default/notebooks.json" then .text "[]" else .missing
    parse := fun sv => if sv == "[]" then some {} else Option.none
    persist := fun _ => true
    zipOpen := .okR
    textRead := Option.none }

/-- The (unique) trace of importing `envC2`'s archive. -/
def tC2 : List Ev :=
  [.entryStart "export/default/notebooks.json",
   .persistStart "export/default/notebooks.json"
     (.saveFromArray "Notebooks" "default" {}),
   .persistSettle "export/default/notebooks.json"
     (.saveFromArray "Notebooks" "default" {}) true,
   .entrySettle "export/default/notebooks.json" true,
   .phase1Settled true]

/-- C2: an archive with eligible entries but no `configs.json` entry
leaves `configFile` undefined, and `readFile(zip, undefined)` throws a
`TypeError` on `file.name`, so the import settles with an error even
though every entry imported successfully — the code fails exactly where
the claim promises an error-free skip of phase 2. -/
theorem C2_no_config_entry_fails :
    configFile envC2 = Option.none ∧
    phase1AllOk envC2 = true ∧
    ImportRun envC2 tC2 false := by
  refine ⟨by decide, by decide, ?_⟩
  refine ⟨(entryTraces envC2).flatten, Merge.seq _, ?_⟩
  decide

/-- Introduction form for `ArchiveRun` when the archive opens. -/
theorem ArchiveRun_of_okR {env : Env} {file : InFile} {r : RunResult}
    (hz : env.zipOpen = .okR) {t : List Ev} {ok : Bool}
    (h : ImportRun env t ok)
    (hr : r = { trace := t, started := true,
                completed := if ok then .ok else .err, settles := true }) :
    ArchiveRun env file r := by
  unfold ArchiveRun
  rw [hz]
  exact ⟨t, ok, h, hr⟩

/-- C1: in an archive import, the configuration entry's import never
starts before every phase-1 entry's import has settled; and if any
phase-1 import fails, no persistence call of the configuration entry is
ever issued and `completed` carries an error. -/
theorem C1_config_after_phase1 (env : Env) (file : InFile) (r : RunResult)
    (h : ArchiveRun env file r) (hz : env.zipOpen = .okR) :
    (∀ cf, configFile env = some cf →
      ∀ pre post, r.trace = pre ++ Ev.entryStart cf.name :: post →
        ∀ f, f ∈ phase1Entries env →
          Ev.entrySettle f.name ((readFileRun env f).2) ∈ pre) ∧
    ((∃ f, f ∈ phase1Entries env ∧ (readFileRun env f).2 = false) →
      r.completed = .err ∧
      ∀ cf e, configFile env = some cf →
        Ev.persistStart cf.name e ∉ r.trace) := by
  unfold ArchiveRun at h
  rw [hz] at h
  obtain ⟨t, ok, himp, rfl⟩ := h
  obtain ⟨t1, hm, hcond⟩ := himp
  dsimp only
  have hnotin : ∀ cf : ZEntry, configFile env = some cf → ∀ e : Ev,
      originOf e = some cf.name → e ∉ t1 := by
    intro cf hcf e horig hmem
    obtain ⟨f', hf', ho⟩ := t1_origin hm hmem
    rw [horig] at ho
    exact phase1_name_ne_config hf' hcf (Option.some.inj ho).symm
  by_cases hall : phase1AllOk env = true
  · rw [if_pos hall] at hcond
    constructor
    · intro cf hcf pre post hsplit f hf
      have hcomb : t1 ++ Ev.phase1Settled true :: (readConfigRun env).1 =
          pre ++ Ev.entryStart cf.name :: post := by
        rw [← hcond.1, hsplit]
      exact mem_pre_of_split hcomb (hnotin cf hcf _ rfl) _
        (settle_mem_t1 hm hf)
    · rintro ⟨f, hf, hfail⟩
      unfold phase1AllOk at hall
      have := List.all_eq_true.1 hall f hf
      simp only [this] at hfail
      cases hfail
  · rw [if_neg hall] at hcond
    constructor
    · intro cf hcf pre post hsplit f hf
      exfalso
      have hmem : Ev.entryStart cf.name ∈ t := by
        rw [hsplit]; simp
      rw [hcond.1] at hmem
      rcases mem_insertFail hmem with hin | heq
      · exact hnotin cf hcf (Ev.entryStart cf.name) rfl hin
      · simp at heq
    · intro _
      constructor
      · rw [hcond.2]
        rfl
      · intro cf e hcf hmem
        rw [hcond.1] at hmem
        rcases mem_insertFail hmem with hin | heq
        · exact hnotin cf hcf (Ev.persistStart cf.name e) rfl hin
        · simp at heq

/-- A witness archive with one bulk entry and one configuration entry,
everything succeeding. -/
def envC1 : Env :=
  { entries := [⟨"export/default/notebooks.json", false⟩,
                ⟨"export/default/configs.json", false⟩]
    val := fun n =>
      if n == "export/default/notebooks.json" then .text "[]"
      else if n == "export/default/configs.json" then .text "[]"
      else .missing
    parse := fun sv => if sv == "[]" then some {} else Option.none
    persist := fun _ => true
    zipOpen := .okR
    textRead := Option.none }

/-- The trace of importing `envC1`'s archive. -/
def tC1 : List Ev :=
  [.entryStart "export/default/notebooks.json",
   .persistStart "export/default/notebooks.json"
     (.saveFromArray "Notebooks" "default" {}),
   .persistSettle "export/default/notebooks.json"
     (.saveFromArray "Notebooks" "default" {}) true,
   .entrySettle "export/default/notebooks.json" true,
   .phase1Settled true,
   .entryStart "export/default/configs.json",
   .persistStart "export/default/configs.json"
     (.saveFromArray "Configs" "default" {}),
   .persistSettle "export/default/configs.json"
     (.saveFromArray "Configs" "default" {}) true,
   .entrySettle "export/default/configs.json" true]

/-- The observable outcome of that run. -/
def rC1 : RunResult :=
  { trace := tC1, started := true, completed := .ok, settles := true }

/-- Witness for C1 at the concrete archive `envC1`. -/
theorem C1_config_after_phase1_witness :
    (∀ cf, configFile envC1 = some cf →
      ∀ pre post, rC1.trace = pre ++ Ev.entryStart cf.name :: post →
        ∀ f, f ∈ phase1Entries envC1 →
          Ev.entrySettle f.name ((readFileRun envC1 f).2) ∈ pre) ∧
    ((∃ f, f ∈ phase1Entries envC1 ∧ (readFileRun envC1 f).2 = false) →
      rC1.completed = .err ∧
      ∀ cf e, configFile envC1 = some cf →
        Ev.persistStart cf.name e ∉ rC1.trace) := by
  have himp : ImportRun envC1 tC1 true := by
    refine ⟨(entryTraces envC1).flatten, Merge.seq _, ?_⟩
    decide
  exact C1_config_after_phase1 envC1 ⟨"application/zip", "backup.zip", 10⟩ rC1
    (ArchiveRun_of_okR rfl himp rfl) rfl

/-- An archive whose first entry fails to decode while the second
imports fine. -/
def envC6 : Env :=
  { entries := [⟨"export/default/notebooks.json", false⟩,
                ⟨"export/default/tags.json", false⟩]
    val := fun n =>
      if n == "export/default/notebooks.json" then .decodeErr
      else if n == "export/default/tags.json" then .text "[]"
      else .missing
    parse := fun sv => if sv == "[]" then some {} else Option.none
    persist := fun _ => true
    zipOpen := .okR
    textRead := Option.none }

/-- The tags entry's persistence call. -/
def effC6 : Eff := .saveFromArray "Tags" "default" {}

/-- A realistic schedule: both imports start, the first settles with a
failure, then the second's persistence call proceeds and settles. -/
def t1C6 : List Ev :=
  [.entryStart "export/default/notebooks.json",
   .entryStart "export/default/tags.json",
   .entrySettle "export/default/notebooks.json" false,
   .persistStart "export/default/tags.json" effC6,
   .persistSettle "export/default/tags.json" effC6 true,
   .entrySettle "export/default/tags.json" true]

/-- The full import trace under that schedule. -/
def tC6 : List Ev := insertFail t1C6

/-- That schedule is a valid interleaving of the two entry traces. -/
theorem mergeC6 : Merge (entryTraces envC6) t1C6 := by
  refine Merge.step _ 0 (.entryStart "export/default/notebooks.json")
    [.entrySettle "export/default/notebooks.json" false] _ (by decide) ?_
  refine Merge.step _ 1 (.entryStart "export/default/tags.json")
    [.persistStart "export/default/tags.json" effC6,
     .persistSettle "export/default/tags.json" effC6 true,
     .entrySettle "export/default/tags.json" true] _ (by decide) ?_
  refine Merge.step _ 0 (.entrySettle "export/default/notebooks.json" false)
    [] _ (by decide) ?_
  refine Merge.step _ 1 (.persistStart "export/default/tags.json" effC6)
    [.persistSettle "export/default/tags.json" effC6 true,
     .entrySettle "export/default/tags.json" true] _ (by decide) ?_
  refine Merge.step _ 1 (.persistSettle "export/default/tags.json" effC6 true)
    [.entrySettle "export/default/tags.json" true] _ (by decide) ?_
  refine Merge.step _ 1 (.entrySettle "export/default/tags.json" true)
    [] _ (by decide) ?_
  exact Merge.done _ (by decide)

/-- C6 counterexample: with the first entry failing, `Promise.all`
rejects as soon as that failure settles, so the phase-1 aggregate
settles while the tags entry's import is still in flight: the trace
carries `phase1Settled` strictly before that entry's settlement,
contradicting the claim that phase 1 completes only once every one of
its imports has settled, whether with success or failure. -/
theorem C6_counterexample :
    ImportRun envC6 tC6 false ∧
    (⟨"export/default/tags.json", false⟩ : ZEntry) ∈ phase1Entries envC6 ∧
    ¬(∀ pre post, tC6 = pre ++ Ev.phase1Settled false :: post →
        Ev.entrySettle "export/default/tags.json"
          ((readFileRun envC6 ⟨"export/default/tags.json", false⟩).2) ∈ pre) := by
  refine ⟨⟨t1C6, mergeC6, by decide⟩, by decide, ?_⟩
  intro hclaim
  have h := hclaim
    [.entryStart "export/default/notebooks.json",
     .entryStart "export/default/tags.json",
     .entrySettle "export/default/notebooks.json" false]
    [.persistStart "export/default/tags.json" effC6,
     .persistSettle "export/default/tags.json" effC6 true,
     .entrySettle "export/default/tags.json" true]
    (by decide)
  revert h
  decide

/-- C6 amended: when every phase-1 import succeeds, the phase-1
aggregate settles only after every one of those imports has settled;
when one fails, the aggregate settles at the first failure, possibly
before the remaining imports settle. -/
theorem C6_phase1_barrier (env : Env) (t : List Ev) (ok : Bool)
    (h : ImportRun env t ok) (hall : phase1AllOk env = true) :
    ∀ pre post b, t = pre ++ Ev.phase1Settled b :: post →
      ∀ f, f ∈ phase1Entries env →
        Ev.entrySettle f.name ((readFileRun env f).2) ∈ pre := by
  obtain ⟨t1, hm, hcond⟩ := h
  rw [if_pos hall] at hcond
  intro pre post b hsplit f hf
  have hcomb : t1 ++ Ev.phase1Settled true :: (readConfigRun env).1 =
      pre ++ Ev.phase1Settled b :: post := by
    rw [← hcond.1, hsplit]
  have hxs : ∀ a, a ∈ t1 → ¬(∃ b', a = Ev.phase1Settled b') := by
    rintro a ha ⟨b', rfl⟩
    exact phase1Settled_not_mem_t1 hm b' ha
  have hys : ∀ a, a ∈ (readConfigRun env).1 →
      ¬(∃ b', a = Ev.phase1Settled b') := by
    rintro a ha ⟨b', rfl⟩
    exact phase1Settled_not_mem_config env b' ha
  obtain ⟨hpre, -, -⟩ :=
    split_eq_of_unique (fun a => ∃ b', a = Ev.phase1Settled b')
      hcomb ⟨b, rfl⟩ hxs hys
  rw [hpre]
  exact settle_mem_t1 hm hf

/-- Witness for the amended C6 at the concrete archive `envC2`, whose
single phase-1 import succeeds: its settlement precedes the aggregate's
settlement in the trace. -/
theorem C6_phase1_barrier_witness :
    Ev.entrySettle "export/default/notebooks.json"
      ((readFileRun envC2 ⟨"export/default/notebooks.json", false⟩).2) ∈
      [Ev.entryStart "export/default/notebooks.json",
       Ev.persistStart "export/default/notebooks.json"
         (.saveFromArray "Notebooks" "default" {}),
       Ev.persistSettle "export/default/notebooks.json"
         (.saveFromArray "Notebooks" "default" {}) true,
       Ev.entrySettle "export/default/notebooks.json" true] := by
  have himp : ImportRun envC2 tC2 false := by
    refine ⟨(entryTraces envC2).flatten, Merge.seq _, ?_⟩
    decide
  exact C6_phase1_barrier envC2 tC2 false himp (by decide)
    [Ev.entryStart "export/default/notebooks.json",
     Ev.persistStart "export/default/notebooks.json"
       (.saveFromArray "Notebooks" "default" {}),
     Ev.persistSettle "export/default/notebooks.json"
       (.saveFromArray "Notebooks" "default" {}) true,
     Ev.entrySettle "export/default/notebooks.json" true]
    [] true (by decide) ⟨"export/default/notebooks.json", false⟩ (by decide)

/-- C10: the configuration test is a substring match: every eligible
entry whose name contains `configs.json` anywhere is withheld from
phase 1; the entry imported in phase 2 is the last matching entry in
enumeration order; and an earlier matching entry contributes no event
to any trace of the import — it is imported in neither phase. -/
theorem C10_config_substring (env : Env) (t : List Ev) (ok : Bool)
    (h : ImportRun env t ok) (f : ZEntry) (_hf : f ∈ env.entries)
    (helig : skipEntry f = false)
    (hsub : containsSub f.name "configs.json" = true) :
    f ∉ phase1Entries env ∧
    configFile env = (env.entries.filter configPred).getLast? ∧
    (∀ cf, configFile env = some cf → f.name ≠ cf.name →
      ∀ e, e ∈ t → originOf e ≠ some f.name) := by
  obtain ⟨t1, hm, hcond⟩ := h
  refine ⟨?_, configFile_eq env, ?_⟩
  · rw [phase1Entries_eq]
    intro hmem
    have hp := (List.mem_filter.1 hmem).2
    simp [phase1Pred, hsub, helig] at hp
  · intro cf hcf hne e he horig
    have hT1 : ∀ e', e' ∈ t1 → originOf e' = some f.name → False := by
      intro e' he' ho
      obtain ⟨f', hf', ho'⟩ := t1_origin hm he'
      rw [ho] at ho'
      have hnames : f.name = f'.name := Option.some.inj ho'
      have hc := phase1_not_config hf'
      rw [← hnames, hsub] at hc
      cases hc
    by_cases hall : phase1AllOk env = true
    · rw [if_pos hall] at hcond
      rw [hcond.1] at he
      rcases List.mem_append.1 he with h1 | h2
      · exact hT1 e h1 horig
      · rcases List.mem_cons.1 h2 with h3 | h4
        · rw [h3] at horig
          simp [originOf] at horig
        · have hcfg : (readConfigRun env).1 = (readFileRun env cf).1 := by
            unfold readConfigRun
            rw [hcf]
          rw [hcfg] at h4
          have ho := originOf_readFileRun h4
          rw [horig] at ho
          exact hne (Option.some.inj ho)
    · rw [if_neg hall] at hcond
      rw [hcond.1] at he
      rcases mem_insertFail he with h1 | h2
      · exact hT1 e h1 horig
      · rw [h2] at horig
        simp [originOf] at horig

/-- A witness archive with two configuration-matching entries and
nothing else. -/
def envC10 : Env :=
  { entries := [⟨"export/default/old.configs.json", false⟩,
                ⟨"export/default/configs.json", false⟩]
    val := fun n =>
      if n == "export/default/configs.json" then .text "[]"
      else if n == "export/default/old.configs.json" then .text "[]"
      else .missing
    parse := fun sv => if sv == "[]" then some {} else Option.none
    persist := fun _ => true
    zipOpen := .okR
    textRead := Option.none }

/-- The trace of importing `envC10`'s archive: phase 1 is empty, then
only the last matching configuration entry is imported. -/
def tC10 : List Ev :=
  [.phase1Settled true,
   .entryStart "export/default/configs.json",
   .persistStart "export/default/configs.json"
     (.saveFromArray "Configs" "default" {}),
   .persistSettle "export/default/configs.json"
     (.saveFromArray "Configs" "default" {}) true,
   .entrySettle "export/default/configs.json" true]

/-- Witness for C10 at the concrete archive `envC10`, taken at its
earlier matching entry. -/
theorem C10_config_substring_witness :
    (⟨"export/default/old.configs.json", false⟩ : ZEntry) ∉
      phase1Entries envC10 ∧
    configFile envC10 = (envC10.entries.filter configPred).getLast? ∧
    (∀ cf, configFile envC10 = some cf →
      (⟨"export/default/old.configs.json", false⟩ : ZEntry).name ≠ cf.name →
      ∀ e, e ∈ tC10 →
        originOf e ≠
          some (⟨"export/default/old.configs.json", false⟩ : ZEntry).name) := by
  have himp : ImportRun envC10 tC10 true := by
    refine ⟨[], Merge.done _ (by decide), ?_⟩
    decide
  exact C10_config_substring envC10 tC10 true himp
    ⟨"export/default/old.configs.json", false⟩ (by decide) (by decide)
    (by decide)

end LavernaImport
